import Mathlib

/-!
# Instance plugins for EBS volumes and Fusion VMs

A shallow embedding of `instance/aws/ebs/plugin.go` and
`instance/vmware/fusion/plugin.go`, followed by theorems about tag merging, the
logical identity codec, enumeration with pagination, tag matching and the
validation of provision requests.

Conventions of the embedding

* A Go `map[string]string` is an association list with pairwise distinct keys
  (`GoMap`).  The order of its entries stands for the unspecified order in
  which `range` visits the map; every theorem holds for every order.  A nil map
  behaves like the empty map for `range` and for lookups, so it is only kept
  apart (as `Option GoMap`) where the code tests `!= nil`.
* A `*string` is an `Option String`; a slice that the code tests against nil is
  an `Option (List _)`.
* Go errors are their message strings; a function returning `(x, error)`
  returns a pair of options.
* Remote calls are answered by a client whose answers may depend on every call
  made before (the trace); every function that talks to a backend takes the
  trace so far and returns the extended trace.
-/

deriving instance DecidableEq for Except

/-- A Go `map[string]string`. -/
abbrev GoMap := AList (fun _ : String => String)

/-- The order of `sort.Strings`: lexicographic on the characters. -/
def strLE (a b : String) : Prop := a.toList ≤ b.toList

instance strLE.decidable : DecidableRel strLE :=
  fun a b => inferInstanceAs (Decidable (a.toList ≤ b.toList))

/-- `sort.Strings`: the ascending rearrangement of the slice. -/
def sortStrings (keys : List String) : List String :=
  keys.insertionSort strLE

/-- `m[k]` in its one-result form: the zero value when `k` is absent. -/
def GoMap.index (m : GoMap) (k : String) : String :=
  (m.lookup k).getD ""

/-- `instance.Spec` of the plugin SPI. -/
structure Spec where
  Properties : Option String
  Tags : Option GoMap
  LogicalID : Option String
deriving DecidableEq

/-- `instance.Description` of the plugin SPI. -/
structure Description where
  ID : String
  LogicalID : Option String
  Tags : GoMap
deriving DecidableEq

namespace ebs

/-- The name of the extra tag that stores the logical ID of the volume. -/
def TagName_InstanceLogicalID : String := "infrakit.instance.logicalID"

/-- `ec2.Tag`. -/
structure Tag where
  Key : Option String
  Value : Option String
deriving DecidableEq

/-- `ec2.Volume`, restricted to the fields the plugin reads. -/
structure Volume where
  VolumeId : Option String
  Tags : Option (List Tag)
deriving DecidableEq

/-- `ec2.CreateVolumeInput`: the field the plugin touches, and the rest. -/
structure CreateVolumeInput where
  AvailabilityZone : Option String
  Other : String
deriving DecidableEq

/-- `ec2.CreateTagsInput`. -/
structure CreateTagsInput where
  Resources : List (Option String)
  Tags : List Tag
deriving DecidableEq

/-- `ec2.Filter`; names and values built with `aws.String` are never nil. -/
structure Filter where
  Name : String
  Values : List String
deriving DecidableEq

/-- `ec2.DescribeVolumesInput`. -/
structure DescribeVolumesInput where
  NextToken : Option String
  Filters : List Filter
deriving DecidableEq

/-- `ec2.DescribeVolumesOutput`. -/
structure DescribeVolumesOutput where
  Volumes : List Volume
  NextToken : Option String
deriving DecidableEq

/-- The concrete provision request type. -/
structure CreateInstanceRequest where
  DiscoverDefaults : Bool
  Tags : GoMap
  CreateVolumeInput : CreateVolumeInput
deriving DecidableEq

/-- One remote call made by the plugin. -/
inductive Call where
  | GetMetadata
  | CreateVolume (input : CreateVolumeInput)
  | CreateTags (input : CreateTagsInput)
  | DescribeVolumes (input : DescribeVolumesInput)
  | DeleteVolume (id : String)
deriving DecidableEq

/-- The part of `ec2iface.EC2API` the plugin uses, together with the metadata
service.  Every answer may depend on the calls made so far. -/
structure EC2API where
  CreateVolume : List Call → CreateVolumeInput → Except String Volume
  CreateTags : List Call → CreateTagsInput → Option String
  DescribeVolumes : List Call → DescribeVolumesInput → Except String DescribeVolumesOutput
  DeleteVolume : List Call → String → Option String
  GetMetadata : List Call → Except String String

/-- An instance provisioner for AWS EBS volumes: the client, and
`json.Unmarshal` into a `CreateInstanceRequest`. -/
structure Provisioner where
  Client : EC2API
  unmarshal : String → Except String CreateInstanceRequest

/-- Where the value of an entry of the tag list was read from. -/
inductive Origin where
  | system
  | user
deriving DecidableEq

/-- Lines 110-116 of `tagInstance`: `Spec.Tags` (or a fresh map when it is nil)
with the logical ID stored under the reserved key. -/
def systemTags (spec : Spec) : GoMap :=
  let systemTags : GoMap := match spec.Tags with
    | some t => t
    | none => ∅
  match spec.LogicalID with
  | some l => systemTags.insert TagName_InstanceLogicalID l
  | none => systemTags

/-- Lines 122-131 of `tagInstance`: the keys of the user tags, then (only when
`Spec.Tags` is not nil) the keys of the system tags, sorted. -/
def tagKeys (spec : Spec) (userTags : GoMap) : List String :=
  let keys := userTags.keys
  let keys := if spec.Tags.isSome then keys ++ (systemTags spec).keys else keys
  sortStrings keys

/-- Lines 133-141 of `tagInstance`: one entry per gathered key, with the system
value when the system tags hold the key and the user value otherwise.  Each
entry is paired with the map its value was read from. -/
def taggedEntries (spec : Spec) (userTags : GoMap) : List (Tag × Origin) :=
  (tagKeys spec userTags).map fun key =>
    match (systemTags spec).lookup key with
    | some value => (⟨some key, some value⟩, Origin.system)
    | none => (⟨some key, some (userTags.index key)⟩, Origin.user)

/-- The `ec2Tags` slice of `tagInstance`. -/
def ec2Tags (spec : Spec) (userTags : GoMap) : List Tag :=
  (taggedEntries spec userTags).map Prod.fst

/-- Tags the volume: a single `CreateTags` call whose error is returned. -/
def tagInstance (p : Provisioner) (volume : Volume) (spec : Spec) (userTags : GoMap)
    (trace : List Call) : Option String × List Call :=
  let input : CreateTagsInput := ⟨[volume.VolumeId], ec2Tags spec userTags⟩
  (p.Client.CreateTags trace input, trace ++ [Call.CreateTags input])

/-- Defaults the availability zone to the one the plugin runs in, which
`util.GetMetadata(util.MetadataAvailabilityZone)` asks the metadata service. -/
def setDiscoveredProperties (p : Provisioner) (ri : CreateVolumeInput)
    (trace : List Call) : CreateVolumeInput × List Call :=
  match ri.AvailabilityZone with
  | none =>
    let trace1 := trace ++ [Call.GetMetadata]
    match p.Client.GetMetadata trace with
    | .ok az => (⟨some az, ri.Other⟩, trace1)
    | .error _ => (ri, trace1)
  | some _ => (ri, trace)

/-- Creates a new instance: the instance ID, the error, and the trace. -/
def Provision (p : Provisioner) (spec : Spec) (trace : List Call) :
    (Option String × Option String) × List Call :=
  match spec.Properties with
  | none => ((none, some "Properties must be set"), trace)
  | some properties =>
    match p.unmarshal properties with
    | .error err => ((none, some ("Invalid input formatting: " ++ err)), trace)
    | .ok request =>
      let (input, trace1) :=
        if request.DiscoverDefaults then
          setDiscoveredProperties p request.CreateVolumeInput trace
        else (request.CreateVolumeInput, trace)
      let trace2 := trace1 ++ [Call.CreateVolume input]
      match p.Client.CreateVolume trace1 input with
      | .error err => ((none, some err), trace2)
      | .ok vol =>
        match vol.VolumeId with
        | none => ((none, some "aws did not respond with volume id."), trace2)
        | some volumeId =>
          match tagInstance p vol spec request.Tags trace2 with
          | (some err, trace3) => ((none, some err), trace3)
          | (none, trace3) => ((some volumeId, none), trace3)

/-- Terminates an existing instance. -/
def Destroy (p : Provisioner) (id : String) (trace : List Call) :
    Option String × List Call :=
  (p.Client.DeleteVolume trace id, trace ++ [Call.DeleteVolume id])

/-- Appends the reserved tag holding the logical ID; no change without an ID. -/
def addLogicalIDToTags (tags : Option (List Tag)) (id : Option String) :
    Option (List Tag) :=
  match id with
  | none => tags
  | some value => some (tags.getD [] ++ [⟨some TagName_InstanceLogicalID, some value⟩])

/-- The loop of `logicalIDFromTags`: the value of the first tag at the reserved
key whose value is not nil. -/
def logicalIDScan : List Tag → Option String
  | [] => none
  | tag :: rest =>
    if tag.Key = some TagName_InstanceLogicalID then
      match tag.Value with
      | some value => some value
      | none => logicalIDScan rest
    else logicalIDScan rest

/-- Reads the logical ID back from a tag slice. -/
def logicalIDFromTags (tags : Option (List Tag)) : Option String :=
  match tags with
  | none => none
  | some l => logicalIDScan l

/-- The request for one page of live volumes: a status filter plus one filter
per tag. -/
def describeVolumesRequest (tags : GoMap) (nextToken : Option String) :
    DescribeVolumesInput :=
  let filters : List Filter := [⟨"status", ["creating", "available", "in-use"]⟩]
  let filters := filters ++ tags.entries.map fun e => ⟨"tag:" ++ e.1, [e.2]⟩
  ⟨nextToken, filters⟩

/-- Lines 169-176 of `describeInstances`: the map of the tags of a volume whose
key and value are both set; a later tag overwrites an earlier one. -/
def volumeTags (tags : Option (List Tag)) : GoMap :=
  (tags.getD []).foldl
    (fun m tag =>
      match tag.Key, tag.Value with
      | some k, some v => m.insert k v
      | _, _ => m)
    ∅

/-- Lines 178-182 of `describeInstances`: the description of one volume.
`*vol.VolumeId` dereferences a nil pointer when the ID is missing (`none`). -/
def describeVolume (vol : Volume) : Option Description :=
  match vol.VolumeId with
  | none => none
  | some id => some ⟨id, logicalIDFromTags vol.Tags, volumeTags vol.Tags⟩

/-- The loop over `result.Volumes`: the descriptions in the order of the
volumes, or `none` when a dereference panics. -/
def describeVolumes : List Volume → Option (List Description)
  | [] => some []
  | vol :: rest =>
    match describeVolume vol with
    | none => none
    | some d =>
      match describeVolumes rest with
      | none => none
      | some ds => some (d :: ds)

/-- How a run of a recursive function ends. -/
inductive Run (α : Type) where
  | outOfFuel
  | panicked
  | returned (value : α) (trace : List Call)
deriving DecidableEq

/-- Enumerates the live volumes page by page.  The recursion follows the
continuation tokens of the backend, so the model takes a bound on the number of
pages it may fetch. -/
def describeInstances (p : Provisioner) :
    Nat → GoMap → Option String → List Call →
      Run (Option (List Description) × Option String)
  | 0, _, _, _ => Run.outOfFuel
  | fuel + 1, tags, nextToken, trace =>
    let request := describeVolumesRequest tags nextToken
    let trace1 := trace ++ [Call.DescribeVolumes request]
    match p.Client.DescribeVolumes trace request with
    | .error err => Run.returned (none, some err) trace1
    | .ok result =>
      match describeVolumes result.Volumes with
      | none => Run.panicked
      | some descriptions =>
        match result.NextToken with
        | some token =>
          match describeInstances p fuel tags (some token) trace1 with
          | Run.returned (_, some err) trace2 => Run.returned (none, some err) trace2
          | Run.returned (remainingPages, none) trace2 =>
            Run.returned (some (descriptions ++ remainingPages.getD []), none) trace2
          | Run.panicked => Run.panicked
          | Run.outOfFuel => Run.outOfFuel
        | none => Run.returned (some descriptions, none) trace1

/-- Implements `instance.Provisioner.DescribeInstances`. -/
def DescribeInstances (p : Provisioner) (fuel : Nat) (tags : GoMap) (trace : List Call) :
    Run (Option (List Description) × Option String) :=
  describeInstances p fuel tags none trace

/-- The backend answers the enumeration that starts at `nextToken` with the
pages `pages`, one after the other: every page but the last carries the token
that asks for the next one, and the last carries none. -/
def pageChain (p : Provisioner) (tags : GoMap) :
    List Call → Option String → List DescribeVolumesOutput → Prop
  | _, _, [] => False
  | trace, nextToken, page :: rest =>
    p.Client.DescribeVolumes trace (describeVolumesRequest tags nextToken) = .ok page ∧
      match rest with
      | [] => page.NextToken = none
      | _ :: _ =>
        page.NextToken ≠ none ∧
          pageChain p tags
            (trace ++ [Call.DescribeVolumes (describeVolumesRequest tags nextToken)])
            page.NextToken rest

/-- The backend answers the enumeration that starts at `nextToken` with the
pages `pages`, each carrying a continuation token, and then fails the call for
the page after them with `err`. -/
def failingChain (p : Provisioner) (tags : GoMap) (err : String) :
    List Call → Option String → List DescribeVolumesOutput → Prop
  | trace, nextToken, [] =>
    p.Client.DescribeVolumes trace (describeVolumesRequest tags nextToken) = .error err
  | trace, nextToken, page :: rest =>
    p.Client.DescribeVolumes trace (describeVolumesRequest tags nextToken) = .ok page ∧
      page.NextToken ≠ none ∧
        failingChain p tags err
          (trace ++ [Call.DescribeVolumes (describeVolumesRequest tags nextToken)])
          page.NextToken rest

/-- The value the tag slice assigns to `k` last: the one of the last tag whose
key is `k` and whose value is set. -/
def lastValue (k : String) : List Tag → Option String
  | [] => none
  | tag :: rest =>
    match lastValue k rest with
    | some v => some v
    | none => if tag.Key = some k then tag.Value else none

/-- The description matches the volume: it has the ID of the volume, the
logical ID decoded from its tags, and a tag map that holds, at every key, the
value the tags of the volume assign to it (tags without a key or without a
value do not count). -/
def Describes (vol : Volume) (d : Description) : Prop :=
  vol.VolumeId = some d.ID ∧ d.LogicalID = logicalIDFromTags vol.Tags ∧
    ∀ k, d.Tags.lookup k = lastValue k (vol.Tags.getD [])

/-- A backend with two volumes on two pages: the call without a token answers
the first page and the token `page-2`, the call with a token the last page. -/
def twoPages : Provisioner :=
  ⟨⟨fun _ _ => .error "unused", fun _ _ => none,
      fun _ request =>
        if request.NextToken = none then
          .ok ⟨[⟨some "vol-1", some [⟨some "env", some "prod"⟩]⟩], some "page-2"⟩
        else .ok ⟨[⟨some "vol-2", none⟩], none⟩,
      fun _ _ => none, fun _ => .error "unused"⟩,
    fun _ => .error "unused"⟩

/-- A backend that answers the first page and fails the call for the second. -/
def secondPageFails : Provisioner :=
  ⟨⟨fun _ _ => .error "unused", fun _ _ => none,
      fun _ request =>
        if request.NextToken = none then
          .ok ⟨[⟨some "vol-1", none⟩], some "page-2"⟩
        else .error "RequestLimitExceeded",
      fun _ _ => none, fun _ => .error "unused"⟩,
    fun _ => .error "unused"⟩

/-- Modelled from the spec: the evaluation of the filters by the backend is
outside the repository; section 4.4 says each filter is a separate predicate
and they are ANDed.  `accepts` is what the backend makes of one filter. -/
def backendSelects (accepts : Filter → Volume → Bool) (filters : List Filter)
    (vol : Volume) : Bool :=
  filters.all fun f => accepts f vol

end ebs

namespace fusion

/-- The concrete provision request type. -/
structure CreateInstanceRequest where
  Tags : GoMap
  MemorySizeMBs : Nat
  NumCPUs : Nat
  LaunchGUI : Bool
deriving DecidableEq

/-- What the plugin asks of a `*vix.VM`. -/
structure VM where
  DisplayName : Except String String
  VmxPath : Except String String
deriving DecidableEq

/-- One action of the plugin on the host: the file system or the VIX API. -/
inductive Effect where
  | MkdirAll (path : String)
  | Clone (path : String)
  | vmStart (path : String) (id : String)
deriving DecidableEq

/-- What manages the VMs: the directory of the VM files and the services the
plugin calls (JSON decoding, the clock, `path/filepath`, reading a file, the
clone of the source VM).  `vmStart` is defined outside the two source files; it
is a parameter. -/
structure Provisioner where
  VMDir : String
  unmarshal : String → Except String CreateInstanceRequest
  unmarshalSpec : String → Except String Spec
  now : List Effect → Int
  join : String → String → String
  dir : String → String
  ReadFile : String → Except String String
  Clone : List Effect → String → Except String VM
  vmStart : List Effect → String → VM → String → Spec → Option String

/-- Creates a new instance: the instance ID, the error, and the trace. -/
def Provision (p : Provisioner) (spec : Spec) (trace : List Effect) :
    (Option String × Option String) × List Effect :=
  match spec.Properties with
  | none => ((none, some "Properties must be set"), trace)
  | some properties =>
    match p.unmarshal properties with
    | .error err => ((none, some ("Invalid input formatting: " ++ err)), trace)
    | .ok _ =>
      let name := "instance-" ++ toString (p.now trace)
      let path := p.join p.VMDir name
      let trace1 := trace ++ [Effect.MkdirAll path]
      let path := p.join path (name ++ ".vmx")
      let trace2 := trace1 ++ [Effect.Clone path]
      match p.Clone trace1 path with
      | .error err => ((none, some err), trace2)
      | .ok clone =>
        ((some name, p.vmStart trace2 path clone name spec),
          trace2 ++ [Effect.vmStart path name])

/-- Lines 220-230 of `DescribeInstances`: an empty filter matches; otherwise the
persisted tags are visited until one has `tags[k] == v`. -/
def tagsMatch (tags : GoMap) (spec : Spec) : Bool :=
  if tags.entries.length = 0 then true
  else (spec.Tags.getD ∅).entries.any fun e => tags.index e.1 == e.2

/-- The closure that `DescribeInstances` hands to `findRunning`: whether the VM
matches, and the result slice, extended when it does. -/
def describeVisit (p : Provisioner) (tags : GoMap) (result : List Description)
    (vm : VM) : List Description × Bool :=
  match vm.DisplayName with
  | .error _ => (result, false)
  | .ok displayName =>
    match vm.VmxPath with
    | .error _ => (result, false)
    | .ok vmxpath =>
      let specPath := p.join (p.dir vmxpath) "infrakit.spec"
      match p.ReadFile specPath with
      | .error _ => (result, false)
      | .ok buff =>
        match p.unmarshalSpec buff with
        | .error _ => (result, false)
        | .ok spec =>
          if tagsMatch tags spec then
            (result ++ [⟨displayName, spec.LogicalID, spec.Tags.getD ∅⟩], true)
          else (result, false)

/-- Modelled from the spec: `findRunning` is not in the two source files.
Section 4.5 describes it as a predicate-based search that applies the predicate
of the caller to each known live resource and returns the matches; here the
predicate also threads the state it closes over, and the live VMs are given. -/
def findRunning {σ : Type} (running : List VM) (pred : σ → VM → σ × Bool) :
    σ → List VM × σ
  | s =>
    running.foldl
      (fun acc vm =>
        let r := pred acc.2 vm
        (if r.2 then acc.1 ++ [vm] else acc.1, r.1))
      ([], s)

/-- Implements `instance.Provisioner.DescribeInstances` over the live VMs: the
result slice that the closure has filled.  The error of `findRunning`, which
is returned next to it, is not modelled. -/
def DescribeInstances (p : Provisioner) (running : List VM) (tags : GoMap) :
    List Description :=
  (findRunning running (describeVisit p tags) []).2

/-- A host on which every persisted spec reads as a spec with the single tag
`role`, whose value is the empty string. -/
def emptyValueHost : Provisioner :=
  ⟨"/vms", fun _ => .error "unused",
    fun _ => .ok ⟨some "", some (AList.insert "role" "" ∅), none⟩,
    fun _ => 0, fun a b => a ++ "/" ++ b, fun path => path, fun _ => .ok "",
    fun _ _ => .error "unused", fun _ _ _ _ _ => none⟩

end fusion

/-! ## The order of the keys -/

theorem strLE_iff (a b : String) : strLE a b ↔ a ≤ b :=
  String.le_iff_toList_le.symm

theorem mem_sortStrings (k : String) (keys : List String) :
    k ∈ sortStrings keys ↔ k ∈ keys :=
  (List.perm_insertionSort strLE keys).mem_iff

theorem count_sortStrings (k : String) (keys : List String) :
    (sortStrings keys).count k = keys.count k :=
  (List.perm_insertionSort strLE keys).count_eq k

theorem sortStrings_sorted (keys : List String) :
    List.Sorted (fun a b : String => a ≤ b) (sortStrings keys) := by
  haveI : IsTotal String strLE := ⟨fun a b => by
    simp only [strLE_iff]; exact le_total a b⟩
  haveI : IsTrans String strLE := ⟨fun a b c hab hbc => by
    simp only [strLE_iff] at *; exact le_trans hab hbc⟩
  have h := List.sorted_insertionSort strLE keys
  exact h.imp fun {a b} hab => (strLE_iff a b).mp hab

namespace ebs

theorem mem_tagKeys (spec : Spec) (userTags : GoMap) (k : String) :
    k ∈ tagKeys spec userTags ↔
      k ∈ userTags.keys ∨ (spec.Tags.isSome = true ∧ k ∈ (systemTags spec).keys) := by
  unfold tagKeys
  simp only [mem_sortStrings]
  split <;> simp_all

theorem count_tagKeys (spec : Spec) (userTags : GoMap) (k : String) :
    (tagKeys spec userTags).count k =
      (if k ∈ userTags.keys then 1 else 0) +
        (if spec.Tags.isSome = true ∧ k ∈ (systemTags spec).keys then 1 else 0) := by
  have hc : ∀ m : GoMap, m.keys.count k = if k ∈ m.keys then 1 else 0 := fun m =>
    List.count_eq_of_nodup m.keys_nodup
  unfold tagKeys
  simp only [count_sortStrings]
  split
  · rename_i h
    simp [List.count_append, hc, h]
  · rename_i h
    simp [hc, h]

theorem tagKeys_sorted (spec : Spec) (userTags : GoMap) :
    List.Sorted (fun a b : String => a ≤ b) (tagKeys spec userTags) :=
  sortStrings_sorted _

theorem ec2Tags_keys (spec : Spec) (userTags : GoMap) :
    (ec2Tags spec userTags).map Tag.Key = (tagKeys spec userTags).map some := by
  unfold ec2Tags taggedEntries
  simp only [List.map_map]
  apply List.map_congr_left
  intro k _
  simp only [Function.comp]
  split <;> rfl

theorem mem_taggedEntries (spec : Spec) (userTags : GoMap) (e : Tag × Origin) :
    e ∈ taggedEntries spec userTags ↔
      ∃ k, k ∈ tagKeys spec userTags ∧
        ((∃ s, (systemTags spec).lookup k = some s ∧ e = (⟨some k, some s⟩, Origin.system)) ∨
          ((systemTags spec).lookup k = none ∧
            e = (⟨some k, some (userTags.index k)⟩, Origin.user))) := by
  unfold taggedEntries
  simp only [List.mem_map]
  constructor
  · rintro ⟨k, hk, rfl⟩
    refine ⟨k, hk, ?_⟩
    cases h : (systemTags spec).lookup k with
    | none => exact Or.inr ⟨rfl, rfl⟩
    | some s => exact Or.inl ⟨s, rfl, rfl⟩
  · rintro ⟨k, hk, h⟩
    refine ⟨k, hk, ?_⟩
    rcases h with ⟨s, hs, rfl⟩ | ⟨hn, rfl⟩
    · rw [hs]
    · rw [hn]

theorem mem_ec2Tags (spec : Spec) (userTags : GoMap) (t : Tag) :
    t ∈ ec2Tags spec userTags ↔
      ∃ k, k ∈ tagKeys spec userTags ∧
        ((∃ s, (systemTags spec).lookup k = some s ∧ t = ⟨some k, some s⟩) ∨
          ((systemTags spec).lookup k = none ∧ t = ⟨some k, some (userTags.index k)⟩)) := by
  unfold ec2Tags
  simp only [List.mem_map, mem_taggedEntries]
  constructor
  · rintro ⟨e, ⟨k, hk, h⟩, rfl⟩
    refine ⟨k, hk, ?_⟩
    rcases h with ⟨s, hs, rfl⟩ | ⟨hn, rfl⟩
    · exact Or.inl ⟨s, hs, rfl⟩
    · exact Or.inr ⟨hn, rfl⟩
  · rintro ⟨k, hk, h⟩
    rcases h with ⟨s, hs, rfl⟩ | ⟨hn, rfl⟩
    · exact ⟨(⟨some k, some s⟩, Origin.system), ⟨k, hk, Or.inl ⟨s, hs, rfl⟩⟩, rfl⟩
    · exact ⟨(⟨some k, some (userTags.index k)⟩, Origin.user), ⟨k, hk, Or.inr ⟨hn, rfl⟩⟩, rfl⟩

theorem lookup_mem_keys {m : GoMap} {k v : String} (h : m.lookup k = some v) :
    k ∈ m.keys := by
  rw [← AList.mem_keys, ← AList.lookup_isSome, h]
  rfl

end ebs

namespace ebs

/-! ## Merging user tags and system tags -/

/-- What the system tags of `tagInstance` hold at a key, read off the spec: the
logical ID at the reserved key when one is set, the value of `Spec.Tags`
otherwise (nothing when `Spec.Tags` is nil). -/
theorem systemTags_lookup (spec : Spec) (k : String) :
    (systemTags spec).lookup k =
      match spec.LogicalID with
      | some l =>
        if k = TagName_InstanceLogicalID then some l
        else (spec.Tags.getD ∅).lookup k
      | none => (spec.Tags.getD ∅).lookup k := by
  rcases spec with ⟨properties, tags, logicalID⟩
  cases logicalID with
  | none => cases tags <;> rfl
  | some l =>
    by_cases hk : k = TagName_InstanceLogicalID
    · subst hk
      simp only [systemTags, if_true]
      exact AList.lookup_insert _
    · simp only [systemTags, hk, if_false]
      rw [AList.lookup_insert_ne hk]
      cases tags <;> rfl

/-- The system value at a key, from the spec: the logical ID at the reserved
key, or the value of `Spec.Tags` at a key the logical ID does not occupy. -/
theorem systemTags_lookup_of_spec (spec : Spec) (k s : String)
    (hs : (k = TagName_InstanceLogicalID ∧ spec.LogicalID = some s) ∨
      ((k = TagName_InstanceLogicalID → spec.LogicalID = none) ∧
        ∃ t, spec.Tags = some t ∧ t.lookup k = some s)) :
    (systemTags spec).lookup k = some s := by
  rw [systemTags_lookup]
  rcases hs with ⟨hk, hl⟩ | ⟨hk, t, ht, hts⟩
  · simp [hl, hk]
  · cases hl : spec.LogicalID with
    | none => simp [ht, hts]
    | some l =>
      have hne : k ≠ TagName_InstanceLogicalID := by
        intro h
        rw [hk h] at hl
        exact absurd hl (by simp)
      simp [hne, ht, hts]

/-- The system tags hold nothing at a key that neither the logical ID nor
`Spec.Tags` provides. -/
theorem systemTags_lookup_none (spec : Spec) (k : String)
    (hl : k = TagName_InstanceLogicalID → spec.LogicalID = none)
    (ht : ∀ t, spec.Tags = some t → t.lookup k = none) :
    (systemTags spec).lookup k = none := by
  rw [systemTags_lookup]
  have htags : (spec.Tags.getD ∅).lookup k = none := by
    cases h : spec.Tags with
    | none => rfl
    | some t => exact ht t h
  cases hlog : spec.LogicalID with
  | none => simpa using htags
  | some l =>
    have hne : k ≠ TagName_InstanceLogicalID := by
      intro h
      rw [hl h] at hlog
      exact absurd hlog (by simp)
    simpa [hne] using htags

/-- The entries of the tag list at a gathered key that the system tags hold:
all are the system entry, and it is there. -/
theorem taggedEntries_system (spec : Spec) (userTags : GoMap) (k s : String)
    (hkey : k ∈ tagKeys spec userTags) (hs : (systemTags spec).lookup k = some s) :
    (⟨some k, some s⟩, Origin.system) ∈ taggedEntries spec userTags ∧
      ∀ e ∈ taggedEntries spec userTags, e.1.Key = some k →
        e = (⟨some k, some s⟩, Origin.system) := by
  refine ⟨(mem_taggedEntries spec userTags _).mpr ⟨k, hkey, Or.inl ⟨s, hs, rfl⟩⟩, ?_⟩
  intro e he hk
  rw [mem_taggedEntries] at he
  obtain ⟨k1, _, h⟩ := he
  rcases h with ⟨s1, hs1, rfl⟩ | ⟨hn, rfl⟩
  · simp only [Option.some.injEq] at hk
    subst hk
    rw [hs] at hs1
    simp only [Option.some.injEq] at hs1
    rw [hs1]
  · simp only [Option.some.injEq] at hk
    subst hk
    rw [hs] at hn
    exact absurd hn (by simp)

/-- The entries of the tag list at a key of the user tags that the system tags
do not hold: all are the user entry, and it is there. -/
theorem taggedEntries_user (spec : Spec) (userTags : GoMap) (k u : String)
    (hu : userTags.lookup k = some u) (hs : (systemTags spec).lookup k = none) :
    (⟨some k, some u⟩, Origin.user) ∈ taggedEntries spec userTags ∧
      ∀ e ∈ taggedEntries spec userTags, e.1.Key = some k →
        e = (⟨some k, some u⟩, Origin.user) := by
  have hkey : k ∈ tagKeys spec userTags :=
    (mem_tagKeys spec userTags k).mpr (Or.inl (lookup_mem_keys hu))
  have hidx : userTags.index k = u := by simp [GoMap.index, hu]
  refine ⟨(mem_taggedEntries spec userTags _).mpr ⟨k, hkey, Or.inr ⟨hs, by rw [hidx]⟩⟩, ?_⟩
  intro e he hk
  rw [mem_taggedEntries] at he
  obtain ⟨k1, _, h⟩ := he
  rcases h with ⟨s1, hs1, rfl⟩ | ⟨hn, rfl⟩
  · simp only [Option.some.injEq] at hk
    subst hk
    rw [hs] at hs1
    exact absurd hs1 (by simp)
  · simp only [Option.some.injEq] at hk
    subst hk
    rw [hidx]

/-- C1: in `tagInstance`, a key `k` held by the user tags (value `u`) and by the
system tags (value `s`: the logical ID when `k` is the reserved key and a
logical ID is set, the value of `Spec.Tags` at `k` otherwise) is sent in the one
`CreateTags` call with the system value: the input holds the entry `k=s`, every
entry at `k` carries `s`, and so none carries `u` when the two differ. -/
theorem tagInstance_system_value_wins (p : Provisioner) (volume : Volume) (spec : Spec)
    (userTags : GoMap) (trace : List Call) (k u s : String)
    (hu : userTags.lookup k = some u)
    (hs : (k = TagName_InstanceLogicalID ∧ spec.LogicalID = some s) ∨
      ((k = TagName_InstanceLogicalID → spec.LogicalID = none) ∧
        ∃ t, spec.Tags = some t ∧ t.lookup k = some s)) :
    ∃ input : CreateTagsInput,
      (tagInstance p volume spec userTags trace).2 = trace ++ [Call.CreateTags input] ∧
        (⟨some k, some s⟩ : Tag) ∈ input.Tags ∧
          (∀ t ∈ input.Tags, t.Key = some k → t.Value = some s) ∧
            (u ≠ s → (⟨some k, some u⟩ : Tag) ∉ input.Tags) := by
  have hsys := systemTags_lookup_of_spec spec k s hs
  have hkey : k ∈ tagKeys spec userTags :=
    (mem_tagKeys spec userTags k).mpr (Or.inl (lookup_mem_keys hu))
  obtain ⟨hin, hall⟩ := taggedEntries_system spec userTags k s hkey hsys
  have hall2 : ∀ t ∈ ec2Tags spec userTags, t.Key = some k → t.Value = some s := by
    intro t ht hk
    obtain ⟨e, he, rfl⟩ := List.mem_map.mp ht
    rw [hall e he hk]
  refine ⟨⟨[volume.VolumeId], ec2Tags spec userTags⟩, rfl, ?_, hall2, ?_⟩
  · exact List.mem_map.mpr ⟨_, hin, rfl⟩
  · intro hne hmem
    have := hall2 _ hmem rfl
    simp only [Option.some.injEq] at this
    exact hne this

/-- C1, at an input: user tags and `Spec.Tags` collide at `env`, and a logical
ID is set. -/
theorem tagInstance_system_value_wins_witness :
    ∃ input : CreateTagsInput,
      (tagInstance twoPages ⟨some "vol-1", none⟩
        ⟨none, some (AList.insert "env" "dev" ∅), some "db-1"⟩
        (AList.insert "env" "prod" ∅) []).2 = [] ++ [Call.CreateTags input] ∧
        (⟨some "env", some "dev"⟩ : Tag) ∈ input.Tags ∧
          (∀ t ∈ input.Tags, t.Key = some "env" → t.Value = some "dev") ∧
            ("prod" ≠ "dev" → (⟨some "env", some "prod"⟩ : Tag) ∉ input.Tags) :=
  tagInstance_system_value_wins twoPages ⟨some "vol-1", none⟩
    ⟨none, some (AList.insert "env" "dev" ∅), some "db-1"⟩
    (AList.insert "env" "prod" ∅) [] "env" "prod" "dev" (by decide)
    (Or.inr ⟨by decide, AList.insert "env" "dev" ∅, rfl, by decide⟩)

/-- C3, as stated, fails: with no logical ID and no `Spec.Tags`, the entry at the
reserved key is read from the user tags; it is what the `CreateTags` call
applies to the volume, and it decodes as the logical ID. -/
theorem reserved_key_user_settable :
    taggedEntries ⟨some "", none, none⟩ (AList.insert TagName_InstanceLogicalID "mine" ∅) =
        [(⟨some TagName_InstanceLogicalID, some "mine"⟩, Origin.user)] ∧
      (tagInstance twoPages ⟨some "vol-1", none⟩ ⟨some "", none, none⟩
        (AList.insert TagName_InstanceLogicalID "mine" ∅) []).2 =
        [Call.CreateTags
          ⟨[some "vol-1"], [⟨some TagName_InstanceLogicalID, some "mine"⟩]⟩] ∧
      logicalIDFromTags (some (ec2Tags ⟨some "", none, none⟩
        (AList.insert TagName_InstanceLogicalID "mine" ∅))) = some "mine" := by
  decide

/-- C3, amended: the user tags hold the reserved key with value `u`.
`tagInstance` makes one `CreateTags` call whose tag list is the list of the
entries below, and
* when a logical ID `s` is set, or none is set and `Spec.Tags` holds `s` at the
  reserved key, the list holds the reserved key with `s`, every entry at the
  reserved key carries `s`, and none was read from the user tags;
* when no logical ID is set and `Spec.Tags` is nil or lacks the reserved key,
  the list holds the reserved key with `u`, every entry at the reserved key
  carries `u`, and each was read from the user tags. -/
theorem reserved_key_system_value (p : Provisioner) (volume : Volume) (spec : Spec)
    (userTags : GoMap) (trace : List Call) (u : String)
    (hu : userTags.lookup TagName_InstanceLogicalID = some u) :
    ∃ input : CreateTagsInput,
      (tagInstance p volume spec userTags trace).2 = trace ++ [Call.CreateTags input] ∧
        input.Tags = (taggedEntries spec userTags).map Prod.fst ∧
        (∀ s,
          (spec.LogicalID = some s ∨
            (spec.LogicalID = none ∧
              ∃ t, spec.Tags = some t ∧ t.lookup TagName_InstanceLogicalID = some s)) →
          (⟨some TagName_InstanceLogicalID, some s⟩ : Tag) ∈ input.Tags ∧
            (∀ t ∈ input.Tags, t.Key = some TagName_InstanceLogicalID → t.Value = some s) ∧
            (∀ e ∈ taggedEntries spec userTags,
              e.1.Key = some TagName_InstanceLogicalID → e.2 = Origin.system)) ∧
        ((spec.LogicalID = none ∧
            ∀ t, spec.Tags = some t → t.lookup TagName_InstanceLogicalID = none) →
          (⟨some TagName_InstanceLogicalID, some u⟩ : Tag) ∈ input.Tags ∧
            (∀ t ∈ input.Tags, t.Key = some TagName_InstanceLogicalID → t.Value = some u) ∧
            (∀ e ∈ taggedEntries spec userTags,
              e.1.Key = some TagName_InstanceLogicalID → e.2 = Origin.user)) := by
  have hkey : TagName_InstanceLogicalID ∈ tagKeys spec userTags :=
    (mem_tagKeys spec userTags _).mpr (Or.inl (lookup_mem_keys hu))
  refine ⟨⟨[volume.VolumeId], ec2Tags spec userTags⟩, rfl, rfl, ?_, ?_⟩
  · intro s hs
    have hsys : (systemTags spec).lookup TagName_InstanceLogicalID = some s := by
      apply systemTags_lookup_of_spec
      rcases hs with hl | ⟨hl, t, ht, hts⟩
      · exact Or.inl ⟨rfl, hl⟩
      · exact Or.inr ⟨fun _ => hl, t, ht, hts⟩
    obtain ⟨hin, hall⟩ := taggedEntries_system spec userTags _ s hkey hsys
    refine ⟨List.mem_map.mpr ⟨_, hin, rfl⟩, ?_, ?_⟩
    · intro t ht hk
      obtain ⟨e, he, rfl⟩ := List.mem_map.mp ht
      rw [hall e he hk]
    · intro e he hk
      rw [hall e he hk]
  · rintro ⟨hl, ht⟩
    have hsys : (systemTags spec).lookup TagName_InstanceLogicalID = none :=
      systemTags_lookup_none spec _ (fun _ => hl) ht
    obtain ⟨hin, hall⟩ := taggedEntries_user spec userTags _ u hu hsys
    refine ⟨List.mem_map.mpr ⟨_, hin, rfl⟩, ?_, ?_⟩
    · intro t ht hk
      obtain ⟨e, he, rfl⟩ := List.mem_map.mp ht
      rw [hall e he hk]
    · intro e he hk
      rw [hall e he hk]

/-- C3, amended, at an input: the user tags hold `mine` at the reserved key and
the logical ID is `db-1`; the call carries `db-1` at the reserved key. -/
theorem reserved_key_system_value_witness :
    (AList.insert TagName_InstanceLogicalID "mine" ∅ : GoMap).lookup
        TagName_InstanceLogicalID = some "mine" ∧
      ∃ input : CreateTagsInput,
        (tagInstance twoPages ⟨some "vol-1", none⟩ ⟨none, none, some "db-1"⟩
          (AList.insert TagName_InstanceLogicalID "mine" ∅) []).2 =
            [] ++ [Call.CreateTags input] ∧
          (⟨some TagName_InstanceLogicalID, some "db-1"⟩ : Tag) ∈ input.Tags ∧
          (∀ t ∈ input.Tags, t.Key = some TagName_InstanceLogicalID →
            t.Value = some "db-1") := by
  refine ⟨by decide, ?_⟩
  obtain ⟨input, hcall, _, hsys, _⟩ :=
    reserved_key_system_value twoPages ⟨some "vol-1", none⟩ ⟨none, none, some "db-1"⟩
      (AList.insert TagName_InstanceLogicalID "mine" ∅) [] "mine" (by decide)
  have h := hsys "db-1" (Or.inl rfl)
  exact ⟨input, hcall, h.1, h.2.1⟩

end ebs

namespace ebs

/-- The tag list is in ascending key order, for every spec and user tag map. -/
theorem ec2Tags_sorted (spec : Spec) (userTags : GoMap) :
    ∃ keys : List String,
      (ec2Tags spec userTags).map Tag.Key = keys.map some ∧
        List.Sorted (fun a b : String => a ≤ b) keys :=
  ⟨tagKeys spec userTags, ec2Tags_keys spec userTags, tagKeys_sorted spec userTags⟩

/-- The number of entries of the tag list at a key: one when the user tags hold
it, plus one when `Spec.Tags` is not nil and the system tags hold it. -/
theorem ec2Tags_count (spec : Spec) (userTags : GoMap) (k : String) :
    ((ec2Tags spec userTags).map Tag.Key).count (some k) =
      (if k ∈ userTags.keys then 1 else 0) +
        (if spec.Tags.isSome = true ∧ k ∈ (systemTags spec).keys then 1 else 0) := by
  rw [ec2Tags_keys, ← count_tagKeys spec userTags k]
  generalize tagKeys spec userTags = keys
  induction keys with
  | nil => rfl
  | cons a rest ih =>
    simp only [List.map_cons, List.count_cons, ih, beq_iff_eq, Option.some.injEq]

/-- C7, at two inputs.  A key held by the user tags and by `Spec.Tags` has two
entries in the tag list of the `CreateTags` call; and with `Spec.Tags` nil and a
logical ID set, the reserved key, which the system tags hold, has none. -/
theorem tagInstance_duplicate_and_missing_key :
    (tagInstance ⟨⟨fun _ _ => .error "", fun _ _ => none, fun _ _ => .error "",
          fun _ _ => none, fun _ => .error ""⟩, fun _ => .error ""⟩
        ⟨some "vol-1", none⟩ ⟨some "", some (AList.insert "env" "dev" ∅), none⟩
        (AList.insert "env" "prod" ∅) []).2 =
        [Call.CreateTags ⟨[some "vol-1"],
          [⟨some "env", some "dev"⟩, ⟨some "env", some "dev"⟩]⟩] ∧
      (systemTags ⟨some "", none, some "db-1"⟩).lookup TagName_InstanceLogicalID =
        some "db-1" ∧
      (tagInstance ⟨⟨fun _ _ => .error "", fun _ _ => none, fun _ _ => .error "",
          fun _ _ => none, fun _ => .error ""⟩, fun _ => .error ""⟩
        ⟨some "vol-1", none⟩ ⟨some "", none, some "db-1"⟩
        (AList.insert "env" "prod" ∅) []).2 =
        [Call.CreateTags ⟨[some "vol-1"], [⟨some "env", some "prod"⟩]⟩] := by
  decide

/-! ## The logical identity codec -/

theorem logicalIDScan_append (l : List Tag) (value : String) :
    logicalIDScan (l ++ [⟨some TagName_InstanceLogicalID, some value⟩]) =
      some ((logicalIDScan l).getD value) := by
  induction l with
  | nil => simp [logicalIDScan]
  | cons tag rest ih =>
    simp only [List.cons_append, logicalIDScan]
    split
    · split
      · simp
      · exact ih
    · exact ih

theorem logicalIDScan_of_all (l : List Tag) (value : String)
    (hmem : ∃ t ∈ l, t.Key = some TagName_InstanceLogicalID)
    (hall : ∀ t ∈ l, t.Key = some TagName_InstanceLogicalID → t.Value = some value) :
    logicalIDScan l = some value := by
  induction l with
  | nil => simp at hmem
  | cons tag rest ih =>
    simp only [logicalIDScan]
    split
    · rename_i hk
      rw [hall tag (List.mem_cons_self _ _) hk]
    · rename_i hk
      apply ih
      · obtain ⟨t, ht, htk⟩ := hmem
        rcases List.mem_cons.mp ht with rfl | ht
        · exact absurd htk hk
        · exact ⟨t, ht, htk⟩
      · intro t ht
        exact hall t (List.mem_cons_of_mem _ ht)

/-- C4, as stated, fails: an entry already at the reserved key is decoded
instead of the identifier that was appended. -/
theorem roundtrip_fails_on_reserved_entry :
    logicalIDFromTags
        (addLogicalIDToTags (some [⟨some TagName_InstanceLogicalID, some "old"⟩])
          (some "new")) = some "old" ∧
      logicalIDFromTags
        (addLogicalIDToTags (some [⟨some TagName_InstanceLogicalID, some "old"⟩])
          (some "new")) ≠ some "new" := by
  decide

theorem logicalIDScan_eq_none (l : List Tag)
    (h : ∀ t ∈ l, t.Key = some TagName_InstanceLogicalID → t.Value = none) :
    logicalIDScan l = none := by
  induction l with
  | nil => rfl
  | cons tag rest ih =>
    have hrest := ih fun t ht => h t (List.mem_cons_of_mem _ ht)
    simp only [logicalIDScan]
    split
    · rename_i hk
      rw [h tag (List.mem_cons_self _ _) hk]
      exact hrest
    · exact hrest

theorem logicalIDScan_first (pre post : List Tag) (tag : Tag) (v : String)
    (hpre : ∀ x ∈ pre, x.Key = some TagName_InstanceLogicalID → x.Value = none)
    (hk : tag.Key = some TagName_InstanceLogicalID) (hv : tag.Value = some v) :
    logicalIDScan (pre ++ tag :: post) = some v := by
  induction pre with
  | nil => simp [logicalIDScan, hk, hv]
  | cons x rest ih =>
    have hrest := ih fun t ht => hpre t (List.mem_cons_of_mem _ ht)
    simp only [List.cons_append, logicalIDScan]
    split
    · rename_i hx
      rw [hpre x (List.mem_cons_self _ _) hx]
      exact hrest
    · exact hrest

/-- C4, amended: for every identifier `L` and every starting tag list (nil,
empty, or holding entries) with no entry at the reserved key that has a value,
decoding after encoding `L` returns `L`; when the starting list has such an
entry, the value of the first one is returned, whatever `L` is. -/
theorem roundtrip_logicalID (tags : Option (List Tag)) (L : String) :
    ((∀ t ∈ tags.getD [], t.Key = some TagName_InstanceLogicalID → t.Value = none) →
        logicalIDFromTags (addLogicalIDToTags tags (some L)) = some L) ∧
      (∀ (pre post : List Tag) (tag : Tag) (v : String),
        tags = some (pre ++ tag :: post) →
        (∀ x ∈ pre, x.Key = some TagName_InstanceLogicalID → x.Value = none) →
        tag.Key = some TagName_InstanceLogicalID → tag.Value = some v →
          logicalIDFromTags (addLogicalIDToTags tags (some L)) = some v) := by
  have h : logicalIDFromTags (addLogicalIDToTags tags (some L)) =
      some ((logicalIDScan (tags.getD [])).getD L) := by
    simp only [addLogicalIDToTags, logicalIDFromTags]
    exact logicalIDScan_append (tags.getD []) L
  refine ⟨fun hnone => ?_, ?_⟩
  · rw [h, logicalIDScan_eq_none _ hnone]
    rfl
  · intro pre post tag v htags hpre hk hv
    rw [h, htags, Option.getD_some, logicalIDScan_first pre post tag v hpre hk hv]
    rfl

/-- C4, amended, at two inputs: a list with another tag and a reserved entry
without a value gives back `db-1`; a list that starts with a valued reserved
entry gives back that value. -/
theorem roundtrip_logicalID_witness :
    logicalIDFromTags
        (addLogicalIDToTags
          (some [⟨some "env", some "prod"⟩, ⟨some TagName_InstanceLogicalID, none⟩])
          (some "db-1")) = some "db-1" ∧
      logicalIDFromTags
        (addLogicalIDToTags
          (some ([] ++ (⟨some TagName_InstanceLogicalID, some "old"⟩ : Tag) ::
            [⟨some "env", some "prod"⟩]))
          (some "db-1")) = some "old" :=
  ⟨(roundtrip_logicalID
      (some [⟨some "env", some "prod"⟩, ⟨some TagName_InstanceLogicalID, none⟩]) "db-1").1
      (by decide),
    (roundtrip_logicalID
      (some ([] ++ (⟨some TagName_InstanceLogicalID, some "old"⟩ : Tag) ::
        [⟨some "env", some "prod"⟩])) "db-1").2
      [] [⟨some "env", some "prod"⟩] ⟨some TagName_InstanceLogicalID, some "old"⟩ "old"
      rfl (by decide) rfl rfl⟩

/-- With a logical ID `L` set, the tag list decodes to `L` as soon as the
reserved key is among the gathered keys: when `Spec.Tags` is not nil, or when
the user tags hold the reserved key. -/
theorem ec2Tags_logicalID (spec : Spec) (userTags : GoMap) (L : String)
    (hL : spec.LogicalID = some L)
    (hk : spec.Tags.isSome = true ∨ TagName_InstanceLogicalID ∈ userTags.keys) :
    logicalIDFromTags (some (ec2Tags spec userTags)) = some L := by
  have hs : (systemTags spec).lookup TagName_InstanceLogicalID = some L := by
    unfold systemTags
    rw [hL]
    exact AList.lookup_insert _
  have hkey : TagName_InstanceLogicalID ∈ tagKeys spec userTags := by
    rw [mem_tagKeys]
    rcases hk with h | h
    · exact Or.inr ⟨h, lookup_mem_keys hs⟩
    · exact Or.inl h
  simp only [logicalIDFromTags]
  apply logicalIDScan_of_all
  · exact ⟨⟨some TagName_InstanceLogicalID, some L⟩,
      (mem_ec2Tags spec userTags _).mpr ⟨_, hkey, Or.inl ⟨L, hs, rfl⟩⟩, rfl⟩
  · intro t ht htk
    rw [mem_ec2Tags] at ht
    obtain ⟨k1, _, h⟩ := ht
    rcases h with ⟨s1, hs1, rfl⟩ | ⟨hn, rfl⟩
    · simp only [Option.some.injEq] at htk
      subst htk
      rw [hs] at hs1
      simp only [Option.some.injEq] at hs1
      rw [hs1]
    · simp only [Option.some.injEq] at htk
      subst htk
      rw [hs] at hn
      exact absurd hn (by simp)

/-- C2, at an input: `Spec.Tags` is nil, the logical ID is `db-1` and the
request carries the user tag `env=prod`.  `Provision` succeeds, the tag list it
applies to the new volume holds the user tag only, and no logical ID is decoded
from it. -/
theorem provision_drops_logicalID :
    Provision
        ⟨⟨fun _ _ => .ok ⟨some "vol-1", none⟩, fun _ _ => none, fun _ _ => .error "",
          fun _ _ => none, fun _ => .error ""⟩,
          fun _ => .ok ⟨false, AList.insert "env" "prod" ∅, ⟨none, ""⟩⟩⟩
        ⟨some "", none, some "db-1"⟩ [] =
        ((some "vol-1", none),
          [Call.CreateVolume ⟨none, ""⟩,
            Call.CreateTags ⟨[some "vol-1"], [⟨some "env", some "prod"⟩]⟩]) ∧
      logicalIDFromTags (some [⟨some "env", some "prod"⟩]) = none := by
  decide

end ebs

namespace ebs

/-! ## The request for a page of volumes -/

theorem tagFilterName_injective {a b : String} (h : "tag:" ++ a = "tag:" ++ b) : a = b := by
  have hd := congrArg String.data h
  simp only [String.data_append] at hd
  exact String.ext (List.append_cancel_left hd)

theorem tagFilterName_ne_status (k : String) : "tag:" ++ k ≠ "status" := by
  intro h
  have hd := congrArg String.data h
  simp only [String.data_append] at hd
  simp only [List.cons_append, List.cons.injEq] at hd
  exact absurd hd.1 (by decide)

theorem filter_tagFilters (k v : String) :
    ∀ l : List (Sigma fun _ : String => String), l.NodupKeys → ⟨k, v⟩ ∈ l →
      (l.map fun e => (⟨"tag:" ++ e.1, [e.2]⟩ : Filter)).filter
          (fun f => f.Name == "tag:" ++ k) = [⟨"tag:" ++ k, [v]⟩]
  | [], _, h => by simp at h
  | e :: rest, hnd, h => by
    rw [List.nodupKeys_cons] at hnd
    rcases List.mem_cons.mp h with rfl | hmem
    · have hnone : ∀ f ∈ (rest.map fun e => (⟨"tag:" ++ e.1, [e.2]⟩ : Filter)),
          ¬ ((f.Name == "tag:" ++ k) = true) := by
        intro f hf hname
        obtain ⟨e1, he1, rfl⟩ := List.mem_map.mp hf
        have hk : e1.1 = k := tagFilterName_injective (by simpa using hname)
        have hin : e1.1 ∈ rest.keys := List.mem_keys_of_mem (s := ⟨e1.1, e1.2⟩) he1
        exact hnd.1 (hk ▸ hin)
      simp only [List.map_cons, List.filter_cons, beq_self_eq_true, if_true]
      rw [List.filter_eq_nil_iff.mpr hnone]
    · have hne : e.1 ≠ k := by
        intro hk
        exact hnd.1 (hk ▸ List.mem_keys_of_mem hmem)
      have hname : ¬ (("tag:" ++ e.1 == "tag:" ++ k) = true) := by
        intro hb
        exact hne (tagFilterName_injective (by simpa using hb))
      simp only [List.map_cons, List.filter_cons, hname, if_false]
      exact filter_tagFilters k v rest hnd.2 hmem

/-- C9: the request carries the token and `1 + n` filters for `n` filter tags:
exactly one filter named `status`, with the values creating, available and
in-use; exactly one filter named `tag:k` for each filter tag `(k, v)`, with the
single value `v`; and nothing else, so that an empty filter leaves the status
filter alone.  A backend that ANDs the filters therefore selects a volume only
if it accepts the filter of every filter tag. -/
theorem describeVolumesRequest_filters (tags : GoMap) (nextToken : Option String) :
    (describeVolumesRequest tags nextToken).NextToken = nextToken ∧
      (describeVolumesRequest tags nextToken).Filters.length = 1 + tags.entries.length ∧
      (describeVolumesRequest tags nextToken).Filters.filter (fun f => f.Name == "status") =
        [⟨"status", ["creating", "available", "in-use"]⟩] ∧
      (∀ k v, tags.lookup k = some v →
        (describeVolumesRequest tags nextToken).Filters.filter
          (fun f => f.Name == "tag:" ++ k) = [⟨"tag:" ++ k, [v]⟩]) ∧
      (∀ f ∈ (describeVolumesRequest tags nextToken).Filters,
        f = ⟨"status", ["creating", "available", "in-use"]⟩ ∨
          ∃ k v, tags.lookup k = some v ∧ f = ⟨"tag:" ++ k, [v]⟩) ∧
      (tags.entries = [] →
        (describeVolumesRequest tags nextToken).Filters =
          [⟨"status", ["creating", "available", "in-use"]⟩]) ∧
      (∀ (accepts : Filter → Volume → Bool) (vol : Volume),
        backendSelects accepts (describeVolumesRequest tags nextToken).Filters vol = true →
          ∀ k v, tags.lookup k = some v → accepts ⟨"tag:" ++ k, [v]⟩ vol = true) := by
  have hmem : ∀ k v, tags.lookup k = some v →
      (⟨"tag:" ++ k, [v]⟩ : Filter) ∈ (describeVolumesRequest tags nextToken).Filters := by
    intro k v hkv
    have he : (⟨k, v⟩ : Sigma fun _ : String => String) ∈ tags.entries :=
      AList.mem_lookup_iff.mp hkv
    simp only [describeVolumesRequest, List.mem_append, List.mem_map]
    exact Or.inr ⟨⟨k, v⟩, he, rfl⟩
  refine ⟨rfl, ?_, ?_, ?_, ?_, ?_, ?_⟩
  · simp [describeVolumesRequest, Nat.add_comm]
  · simp only [describeVolumesRequest, List.filter_append]
    have hnone : ∀ f ∈ (tags.entries.map fun e => (⟨"tag:" ++ e.1, [e.2]⟩ : Filter)),
        ¬ ((f.Name == "status") = true) := by
      intro f hf hname
      obtain ⟨e1, _, rfl⟩ := List.mem_map.mp hf
      exact tagFilterName_ne_status e1.1 (by simpa using hname)
    rw [List.filter_eq_nil_iff.mpr hnone]
    rfl
  · intro k v hkv
    have he : (⟨k, v⟩ : Sigma fun _ : String => String) ∈ tags.entries :=
      AList.mem_lookup_iff.mp hkv
    simp only [describeVolumesRequest, List.filter_append]
    rw [filter_tagFilters k v tags.entries tags.nodupKeys he]
    have hs : ¬ (("status" == "tag:" ++ k) = true) := by
      intro hb
      have hb1 : "status" = "tag:" ++ k := by simpa using hb
      exact tagFilterName_ne_status k hb1.symm
    simp [List.filter_cons, hs]
  · intro f hf
    simp only [describeVolumesRequest, List.mem_append, List.mem_singleton,
      List.mem_map] at hf
    rcases hf with rfl | ⟨e, he, rfl⟩
    · exact Or.inl rfl
    · exact Or.inr ⟨e.1, e.2, AList.mem_lookup_iff.mpr he, rfl⟩
  · intro h
    simp [describeVolumesRequest, h]
  · intro accepts vol hsel k v hkv
    unfold backendSelects at hsel
    rw [List.all_eq_true] at hsel
    exact hsel _ (hmem k v hkv)

end ebs

namespace ebs

/-! ## Enumeration page by page -/

theorem foldl_volumeTags_lookup (k : String) (l : List Tag) (m : GoMap) :
    (l.foldl
        (fun m tag =>
          match tag.Key, tag.Value with
          | some k, some v => m.insert k v
          | _, _ => m)
        m).lookup k =
      match lastValue k l with
      | some v => some v
      | none => m.lookup k := by
  induction l generalizing m with
  | nil => simp [lastValue]
  | cons tag rest ih =>
    simp only [List.foldl_cons, lastValue]
    rw [ih]
    cases hrest : lastValue k rest with
    | some v => rfl
    | none =>
      simp only
      rcases tag with ⟨key, value⟩
      cases key with
      | none => simp
      | some k1 =>
        cases value with
        | none => by_cases hk : k1 = k <;> simp [hk]
        | some v1 =>
          by_cases hk : k1 = k
          · subst hk
            simp
          · have hk2 : k ≠ k1 := fun h => hk h.symm
            simp [hk, AList.lookup_insert_ne hk2]

theorem volumeTags_lookup (tags : Option (List Tag)) (k : String) :
    (volumeTags tags).lookup k = lastValue k (tags.getD []) := by
  unfold volumeTags
  rw [foldl_volumeTags_lookup]
  cases lastValue k (tags.getD []) with
  | some v => rfl
  | none => simp

theorem describeVolume_describes (vol : Volume) (h : vol.VolumeId ≠ none) :
    ∃ d, describeVolume vol = some d ∧ Describes vol d := by
  unfold describeVolume
  cases hid : vol.VolumeId with
  | none => exact absurd hid h
  | some id =>
    exact ⟨_, rfl, ⟨hid, rfl, fun k => volumeTags_lookup vol.Tags k⟩⟩

theorem describeVolumes_describes (vols : List Volume)
    (h : ∀ vol ∈ vols, vol.VolumeId ≠ none) :
    ∃ ds, describeVolumes vols = some ds ∧ List.Forall₂ Describes vols ds := by
  induction vols with
  | nil => exact ⟨[], rfl, List.Forall₂.nil⟩
  | cons vol rest ih =>
    obtain ⟨d, hd, hD⟩ := describeVolume_describes vol (h vol (List.mem_cons_self _ _))
    obtain ⟨ds, hds, hDs⟩ := ih fun v hv => h v (List.mem_cons_of_mem _ hv)
    refine ⟨d :: ds, ?_, List.Forall₂.cons hD hDs⟩
    simp only [describeVolumes, hd, hds]

/-- C5: when the backend answers the enumeration with the pages `P1, ..., Pn`
(each but the last carrying the token of the next, every volume carrying its
ID), `describeInstances` returns, without error and as soon as it may fetch `n`
pages, one description per volume of `P1 ++ ... ++ Pn`, in that order; each has
the ID of its volume, the map of its tags and the logical ID decoded by
`logicalIDFromTags`. -/
theorem describeInstances_aggregates (p : Provisioner) (tags : GoMap)
    (pages : List DescribeVolumesOutput) (trace : List Call) (nextToken : Option String)
    (fuel : Nat)
    (hchain : pageChain p tags trace nextToken pages)
    (hids : ∀ page ∈ pages, ∀ vol ∈ page.Volumes, vol.VolumeId ≠ none)
    (hfuel : pages.length ≤ fuel) :
    ∃ ds trace1,
      describeInstances p fuel tags nextToken trace = Run.returned (some ds, none) trace1 ∧
        List.Forall₂ Describes (pages.map DescribeVolumesOutput.Volumes).flatten ds := by
  induction pages generalizing trace nextToken fuel with
  | nil => exact absurd hchain (by simp [pageChain])
  | cons page rest ih =>
    cases fuel with
    | zero => simp at hfuel
    | succ fuel =>
      obtain ⟨ds1, hds1, hD1⟩ :=
        describeVolumes_describes page.Volumes (hids page (List.mem_cons_self _ _))
      unfold pageChain at hchain
      obtain ⟨hcall, hrest⟩ := hchain
      cases rest with
      | nil =>
        simp only at hrest
        refine ⟨ds1, trace ++ [Call.DescribeVolumes (describeVolumesRequest tags nextToken)],
          ?_, ?_⟩
        · simp only [describeInstances, hcall, hds1, hrest]
        · simpa using hD1
      | cons page2 rest2 =>
        simp only at hrest
        obtain ⟨htok, hchain2⟩ := hrest
        obtain ⟨token, htoken⟩ := Option.ne_none_iff_exists'.mp htok
        rw [htoken] at hchain2
        have hfuel2 : (page2 :: rest2).length ≤ fuel := by
          simpa using hfuel
        obtain ⟨ds2, trace2, hrun, hD2⟩ :=
          ih _ (some token) fuel hchain2
            (fun pg hpg => hids pg (List.mem_cons_of_mem _ hpg)) hfuel2
        refine ⟨ds1 ++ ds2, trace2, ?_, ?_⟩
        · simp only [describeInstances, hcall, hds1, htoken, hrun, Option.getD_some]
        · simp only [List.map_cons, List.flatten_cons]
          simp only [List.map_cons, List.flatten_cons] at hD2
          exact List.rel_append hD1 hD2

/-- C10: when the backend answers with the pages `P1, ..., Pk` (`k` may be 0),
each carrying a continuation token, and then fails the call for the next page
with `err`, `describeInstances` returns `err` itself and a nil slice: none of
the descriptions of the pages fetched before is returned. -/
theorem describeInstances_page_failure (p : Provisioner) (tags : GoMap) (err : String)
    (pages : List DescribeVolumesOutput) (trace : List Call) (nextToken : Option String)
    (fuel : Nat)
    (hchain : failingChain p tags err trace nextToken pages)
    (hids : ∀ page ∈ pages, ∀ vol ∈ page.Volumes, vol.VolumeId ≠ none)
    (hfuel : pages.length + 1 ≤ fuel) :
    ∃ trace1,
      describeInstances p fuel tags nextToken trace = Run.returned (none, some err) trace1 := by
  induction pages generalizing trace nextToken fuel with
  | nil =>
    cases fuel with
    | zero => simp at hfuel
    | succ fuel =>
      unfold failingChain at hchain
      exact ⟨trace ++ [Call.DescribeVolumes (describeVolumesRequest tags nextToken)],
        by simp only [describeInstances, hchain]⟩
  | cons page rest ih =>
    cases fuel with
    | zero => simp at hfuel
    | succ fuel =>
      obtain ⟨ds1, hds1, _⟩ :=
        describeVolumes_describes page.Volumes (hids page (List.mem_cons_self _ _))
      unfold failingChain at hchain
      obtain ⟨hcall, htok, hchain2⟩ := hchain
      obtain ⟨token, htoken⟩ := Option.ne_none_iff_exists'.mp htok
      rw [htoken] at hchain2
      have hfuel2 : rest.length + 1 ≤ fuel := by
        simpa using hfuel
      obtain ⟨trace2, hrun⟩ :=
        ih _ (some token) fuel hchain2
          (fun pg hpg => hids pg (List.mem_cons_of_mem _ hpg)) hfuel2
      exact ⟨trace2, by simp only [describeInstances, hcall, hds1, htoken, hrun]⟩

end ebs

namespace ebs

/-- C5, at an input: two pages of one volume each. -/
theorem describeInstances_aggregates_witness :
    ∃ ds trace1,
      describeInstances twoPages 2 ∅ none [] = Run.returned (some ds, none) trace1 ∧
        List.Forall₂ Describes
          (([⟨[⟨some "vol-1", some [⟨some "env", some "prod"⟩]⟩], some "page-2"⟩,
            ⟨[⟨some "vol-2", none⟩], none⟩] : List DescribeVolumesOutput).map
              DescribeVolumesOutput.Volumes).flatten ds :=
  describeInstances_aggregates twoPages ∅
    [⟨[⟨some "vol-1", some [⟨some "env", some "prod"⟩]⟩], some "page-2"⟩,
      ⟨[⟨some "vol-2", none⟩], none⟩] [] none 2
    ⟨rfl, by decide, rfl, rfl⟩ (by decide) (by decide)

/-- C10, at an input: the call for the second page fails. -/
theorem describeInstances_page_failure_witness :
    ∃ trace1,
      describeInstances secondPageFails 2 ∅ none [] =
        Run.returned (none, some "RequestLimitExceeded") trace1 :=
  describeInstances_page_failure secondPageFails ∅ "RequestLimitExceeded"
    [⟨[⟨some "vol-1", none⟩], some "page-2"⟩] [] none 2
    ⟨rfl, by decide, rfl⟩ (by decide) (by decide)

/-- The two pages of `twoPages` are returned as one sequence, after two calls. -/
theorem describeInstances_twoPages :
    describeInstances twoPages 2 ∅ none [] =
      Run.returned
        (some [⟨"vol-1", none, AList.insert "env" "prod" ∅⟩, ⟨"vol-2", none, ∅⟩], none)
        [Call.DescribeVolumes ⟨none, [⟨"status", ["creating", "available", "in-use"]⟩]⟩,
          Call.DescribeVolumes
            ⟨some "page-2", [⟨"status", ["creating", "available", "in-use"]⟩]⟩] :=
  rfl

end ebs

namespace fusion

/-! ## Tag matching over the persisted specs -/

theorem tagsMatch_iff (tags : GoMap) (spec : Spec) :
    tagsMatch tags spec = true ↔
      tags.entries = [] ∨
        ∃ k v, (spec.Tags.getD ∅).lookup k = some v ∧ tags.index k = v := by
  unfold tagsMatch
  by_cases h : tags.entries = []
  · simp [h]
  · have hlen : ¬ tags.entries.length = 0 := by
      simpa using h
    simp only [hlen, if_false, List.any_eq_true, beq_iff_eq, h, false_or]
    constructor
    · rintro ⟨e, he, hv⟩
      exact ⟨e.1, e.2, AList.mem_lookup_iff.mpr he, hv⟩
    · rintro ⟨k, v, hkv, hv⟩
      exact ⟨⟨k, v⟩, AList.mem_lookup_iff.mp hkv, hv⟩

/-- A VM is matched when the filter is empty, and when the filter and the
persisted tags hold a key with the same value. -/
theorem tagsMatch_of_shared (tags : GoMap) (spec : Spec) :
    (tags.entries = [] → tagsMatch tags spec = true) ∧
      ∀ k v, tags.lookup k = some v → (spec.Tags.getD ∅).lookup k = some v →
        tagsMatch tags spec = true := by
  refine ⟨fun h => (tagsMatch_iff tags spec).mpr (Or.inl h), ?_⟩
  intro k v ht hs
  exact (tagsMatch_iff tags spec).mpr (Or.inr ⟨k, v, hs, by simp [GoMap.index, ht]⟩)

/-- C6, at an input: the filter is `env=prod` and the persisted spec has the one
tag `role` with the empty string as its value.  No key of the filter is in the
persisted tags, yet `tags["role"]` is the zero value, which equals the persisted
value: the VM is matched and described. -/
theorem describeInstances_matches_without_shared_key :
    (∀ k ∈ (AList.insert "env" "prod" ∅ : GoMap).keys,
        (AList.insert "role" "" ∅ : GoMap).lookup k = none) ∧
      tagsMatch (AList.insert "env" "prod" ∅)
        ⟨some "", some (AList.insert "role" "" ∅), none⟩ = true ∧
      describeVisit emptyValueHost (AList.insert "env" "prod" ∅) []
          ⟨.ok "instance-1", .ok "/vms/instance-1/instance-1.vmx"⟩ =
        ([⟨"instance-1", none, AList.insert "role" "" ∅⟩], true) ∧
      DescribeInstances emptyValueHost
          [⟨.ok "instance-1", .ok "/vms/instance-1/instance-1.vmx"⟩]
          (AList.insert "env" "prod" ∅) =
        [⟨"instance-1", none, AList.insert "role" "" ∅⟩] :=
  ⟨by decide, by decide, rfl, rfl⟩

end fusion

/-! ## Provision without properties -/

/-- C8: for a spec without `Properties`, `Provision` of the EBS backend and of
the Fusion backend return the error `Properties must be set` and no instance
ID, and leave the trace as it was: no `CreateVolume`, no `CreateTags`, no
directory, no clone. -/
theorem provision_requires_properties (pe : ebs.Provisioner) (pf : fusion.Provisioner)
    (spec : Spec) (calls : List ebs.Call) (effects : List fusion.Effect)
    (h : spec.Properties = none) :
    ebs.Provision pe spec calls = ((none, some "Properties must be set"), calls) ∧
      fusion.Provision pf spec effects =
        ((none, some "Properties must be set"), effects) := by
  constructor
  · unfold ebs.Provision
    rw [h]
  · unfold fusion.Provision
    rw [h]

/-- C8, at an input: a spec with tags and a logical ID, but no properties. -/
theorem provision_requires_properties_witness :
    (⟨none, some (AList.insert "env" "prod" ∅), some "db-1"⟩ : Spec).Properties = none ∧
      ebs.Provision ebs.twoPages ⟨none, some (AList.insert "env" "prod" ∅), some "db-1"⟩ [] =
        ((none, some "Properties must be set"), []) ∧
      fusion.Provision fusion.emptyValueHost
          ⟨none, some (AList.insert "env" "prod" ∅), some "db-1"⟩ [] =
        ((none, some "Properties must be set"), []) :=
  ⟨rfl, provision_requires_properties ebs.twoPages fusion.emptyValueHost
    ⟨none, some (AList.insert "env" "prod" ∅), some "db-1"⟩ [] [] rfl⟩
